import Mathlib

set_option maxHeartbeats 1000000

/-!
Verification of the AST traversal / metrics engine of `src/Main.c`
(C-Code-Complexity-Analyzer).

The program walks a libclang AST with a recursive visitor (`visitor`,
Main.c lines 18-72), which per node: allocates a sequential node id,
writes a DOT node line, writes a DOT edge line to the parent on the
stack (if any), pushes its id on a fixed 1024-entry stack, bumps the
cyclomatic counter on decision kinds, counts variable declarations,
tracks current/maximum loop-nesting depth, recurses into the children,
then undoes the loop-depth increment and the push.  `main`
(lines 74-137) opens `ast.dot`, writes the digraph header, parses the
input, runs the traversal over the translation unit, closes the file,
shells out to Graphviz and a viewer, and prints three metric lines.

The embedding below models the AST as a tree of cursor kinds and
labels, the DOT file as a list of emitted records, and the metrics
struct field by field.  Machine `int` counters are modelled as `Int`
(no counter can realistically overflow; ids are modelled as `Nat`).
-/

/-- The cursor kinds the visitor distinguishes (Main.c lines 40-53);
every other libclang kind is collapsed into `other` because the code
treats them all alike. -/
inductive CursorKind where
  | ifStmt
  | forStmt
  | whileStmt
  | caseStmt
  | conditionalOperator
  | varDecl
  | other
deriving DecidableEq

mutual
/-- An AST node as the visitor consumes it: a kind, a spelling
(label), and the ordered children. -/
inductive Ast where
  | node (kind : CursorKind) (label : String) (children : AstList)

/-- Ordered list of children of an AST node. -/
inductive AstList where
  | nil
  | cons (t : Ast) (ts : AstList)
end

/-- One record written to the DOT file: a node line
(Main.c line 26) or an edge line (line 32). -/
inductive DotEntry where
  | node (id : Nat) (label : String)
  | edge (src : Nat) (dst : Nat)
deriving DecidableEq

/-- The `Metrics` struct of Main.c lines 6-15.  `dot` models the
stream of records written through `dotFile`; `nodeStack` models the
live portion `nodeStack[0..stackTop)` of the fixed array, with the
head of the list at index `stackTop - 1` (so `stackTop` is the list
length).  `stackAccesses` is a ghost trace recording the array index
of every read of `nodeStack[stackTop-1]` (line 31) and every store
`nodeStack[stackTop++]` (line 36); it influences nothing else and
exists to reason about the bounds of the fixed 1024-entry array. -/
structure Metrics where
  cyclomatic : Int
  varDeclCount : Int
  currentLoopDepth : Int
  maxLoopDepth : Int
  nodeCounter : Nat
  nodeStack : List Nat
  dot : List DotEntry
  stackAccesses : List Nat
deriving DecidableEq

/-- The decision-point test of Main.c lines 40-44. -/
def decisionKind (k : CursorKind) : Bool :=
  k == CursorKind.ifStmt || k == CursorKind.forStmt || k == CursorKind.whileStmt ||
    k == CursorKind.caseStmt || k == CursorKind.conditionalOperator

/-- The loop test `isLoop` of Main.c line 53. -/
def isLoopKind (k : CursorKind) : Bool :=
  k == CursorKind.forStmt || k == CursorKind.whileStmt

/-- Main.c line 20, second effect: `metrics->nodeCounter++`. -/
def bumpCounter (m : Metrics) : Metrics :=
  { m with nodeCounter := m.nodeCounter + 1 }

/-- Main.c lines 23-27: write the node record with its label. -/
def emitNode (nodeId : Nat) (label : String) (m : Metrics) : Metrics :=
  { m with dot := m.dot ++ [DotEntry.node nodeId label] }

/-- Main.c lines 30-33: if the stack is non-empty, read the parent id
from `nodeStack[stackTop - 1]` and write the edge record. -/
def emitEdge (nodeId : Nat) (m : Metrics) : Metrics :=
  match m.nodeStack with
  | parentId :: _ =>
    { m with dot := m.dot ++ [DotEntry.edge parentId nodeId],
             stackAccesses := m.stackAccesses ++ [m.nodeStack.length - 1] }
  | [] => m

/-- Main.c line 36: `nodeStack[stackTop++] = nodeId`. -/
def pushNode (nodeId : Nat) (m : Metrics) : Metrics :=
  { m with nodeStack := nodeId :: m.nodeStack,
           stackAccesses := m.stackAccesses ++ [m.nodeStack.length] }

/-- Main.c lines 40-46: `metrics->cyclomatic++` on decision points. -/
def bumpCyclomatic (kind : CursorKind) (m : Metrics) : Metrics :=
  if decisionKind kind then { m with cyclomatic := m.cyclomatic + 1 } else m

/-- Main.c lines 48-50: `metrics->varDeclCount++` on declarations. -/
def bumpVarDecl (kind : CursorKind) (m : Metrics) : Metrics :=
  if kind == CursorKind.varDecl then { m with varDeclCount := m.varDeclCount + 1 } else m

/-- Main.c lines 54-58: on a loop node, increment `currentLoopDepth`
and raise `maxLoopDepth` when exceeded. -/
def enterLoop (isLoop : Bool) (m : Metrics) : Metrics :=
  if isLoop then
    let mA := { m with currentLoopDepth := m.currentLoopDepth + 1 }
    if mA.currentLoopDepth > mA.maxLoopDepth then { mA with maxLoopDepth := mA.currentLoopDepth }
    else mA
  else m

/-- Main.c lines 64-66: on a loop node, decrement `currentLoopDepth`
after the children. -/
def exitLoop (isLoop : Bool) (m : Metrics) : Metrics :=
  if isLoop then { m with currentLoopDepth := m.currentLoopDepth - 1 } else m

/-- Main.c line 69: `metrics->stackTop--`. -/
def popNode (m : Metrics) : Metrics :=
  { m with nodeStack := m.nodeStack.tail }

mutual
/-- The visitor of Main.c lines 18-72, statement by statement (each
step function above is one statement of the C body).  It always
returns `CXChildVisit_Continue`, so `clang_visitChildren` (line 61)
visits every child in order: that call is `visitChildren`. -/
def visitor : Ast → Metrics → Metrics
  | Ast.node kind label children, m0 =>
    -- int nodeId = metrics->nodeCounter++;
    let nodeId := m0.nodeCounter
    let m1 := bumpCounter m0
    let m2 := emitNode nodeId label m1
    let m3 := emitEdge nodeId m2
    let m4 := pushNode nodeId m3
    let m5 := bumpCyclomatic kind m4
    let m6 := bumpVarDecl kind m5
    -- int isLoop = (kind == CXCursor_ForStmt || kind == CXCursor_WhileStmt);
    let isLoop := isLoopKind kind
    let m7 := enterLoop isLoop m6
    -- clang_visitChildren(current, visitor, client_data);
    let m8 := visitChildren children m7
    let m9 := exitLoop isLoop m8
    popNode m9

/-- `clang_visitChildren` applying `visitor` to each child in order
(the visitor always returns `CXChildVisit_Continue`). -/
def visitChildren : AstList → Metrics → Metrics
  | AstList.nil, m => m
  | AstList.cons t ts, m => visitChildren ts (visitor t m)
end

/-- The metrics initialisation of Main.c lines 101-108: cyclomatic
starts at 1, everything else at zero / empty. -/
def initMetrics : Metrics :=
  { cyclomatic := 1, varDeclCount := 0, currentLoopDepth := 0, maxLoopDepth := 0,
    nodeCounter := 0, nodeStack := [], dot := [], stackAccesses := [] }

/-- Traversal of a single-rooted input tree: the visitor invoked on
the root with freshly initialised metrics (Main.c lines 101-111 with a
translation unit whose forest is this one tree). -/
def runVisitor (t : Ast) : Metrics :=
  visitor t initMetrics

mutual
/-- Number of nodes of a tree. -/
def size : Ast → Nat
  | Ast.node _ _ cs => 1 + sizeF cs

/-- Number of nodes of a forest. -/
def sizeF : AstList → Nat
  | AstList.nil => 0
  | AstList.cons t ts => size t + sizeF ts
end

mutual
/-- Height of a tree (number of nodes on a longest root-to-leaf path). -/
def depth : Ast → Nat
  | Ast.node _ _ cs => 1 + depthF cs

/-- Height of a forest. -/
def depthF : AstList → Nat
  | AstList.nil => 0
  | AstList.cons t ts => max (depth t) (depthF ts)
end

mutual
/-- Number of decision-point-kind nodes of a tree. -/
def decisionCount : Ast → Nat
  | Ast.node k _ cs => (if decisionKind k then 1 else 0) + decisionCountF cs

/-- Number of decision-point-kind nodes of a forest. -/
def decisionCountF : AstList → Nat
  | AstList.nil => 0
  | AstList.cons t ts => decisionCount t + decisionCountF ts
end

mutual
/-- Number of variable-declaration-kind nodes of a tree. -/
def varCount : Ast → Nat
  | Ast.node k _ cs => (if k == CursorKind.varDecl then 1 else 0) + varCountF cs

/-- Number of variable-declaration-kind nodes of a forest. -/
def varCountF : AstList → Nat
  | AstList.nil => 0
  | AstList.cons t ts => varCount t + varCountF ts
end

mutual
/-- Number of loop-kind (for/while) nodes of a tree. -/
def loopCount : Ast → Nat
  | Ast.node k _ cs => (if isLoopKind k then 1 else 0) + loopCountF cs

/-- Number of loop-kind nodes of a forest. -/
def loopCountF : AstList → Nat
  | AstList.nil => 0
  | AstList.cons t ts => loopCount t + loopCountF ts
end

mutual
/-- For every loop-kind node of the tree, in preorder, the number of
its loop-kind ancestors including itself, given that `d` loop-kind
ancestors enclose the tree. -/
def loopAncCounts : Ast → Nat → List Nat
  | Ast.node k _ cs, d =>
    if isLoopKind k then (d + 1) :: loopAncCountsF cs (d + 1)
    else loopAncCountsF cs d

/-- Forest version of `loopAncCounts`. -/
def loopAncCountsF : AstList → Nat → List Nat
  | AstList.nil, _ => []
  | AstList.cons t ts, d => loopAncCounts t d ++ loopAncCountsF ts d
end

/-- Maximum of a list of naturals (0 for the empty list). -/
def natListMax (l : List Nat) : Nat :=
  l.foldr max 0

mutual
/-- Exact evolution of `maxLoopDepth` across `visitor` on one tree,
as a function of the incoming `currentLoopDepth` `c` and incoming
`maxLoopDepth` `mx`; the conditional mirrors Main.c lines 56-57. -/
def maxAfter : Ast → Int → Int → Int
  | Ast.node k _ cs, c, mx =>
    if isLoopKind k then
      maxForestAfter cs (c + 1) (if c + 1 > mx then c + 1 else mx)
    else maxForestAfter cs c mx

/-- Forest version of `maxAfter`. -/
def maxForestAfter : AstList → Int → Int → Int
  | AstList.nil, _, mx => mx
  | AstList.cons t ts, c, mx => maxForestAfter ts c (maxAfter t c mx)
end

mutual
/-- The DOT records `visitor` emits for one tree whose root receives
id `n` and whose parent on the stack (if any) is `p`: a node line,
an optional edge line, then the children with ids `n+1` onwards. -/
def dotOf : Ast → Nat → Option Nat → List DotEntry
  | Ast.node _ lbl cs, n, p =>
    DotEntry.node n lbl ::
      ((match p with | some q => [DotEntry.edge q n] | none => []) ++
        dotForest cs (n + 1) (some n))

/-- Forest version of `dotOf`: consecutive subtrees, ids allocated
in preorder. -/
def dotForest : AstList → Nat → Option Nat → List DotEntry
  | AstList.nil, _, _ => []
  | AstList.cons t ts, n, p => dotOf t n p ++ dotForest ts (n + size t) p
end

mutual
/-- The `nodeStack` array indices `visitor` touches on one tree
entered at stack depth `d`: a read at `d - 1` when a parent exists,
the store at `d`, then the children at depth `d + 1`. -/
def accessesOf : Ast → Nat → List Nat
  | Ast.node _ _ cs, d =>
    (if 0 < d then [d - 1] else []) ++ (d :: accessesF cs (d + 1))

/-- Forest version of `accessesOf`. -/
def accessesF : AstList → Nat → List Nat
  | AstList.nil, _ => []
  | AstList.cons t ts, d => accessesOf t d ++ accessesF ts d
end

mutual
/-- Preorder node records of a tree: each node paired with its
preorder id, ids starting at `n`. -/
def preNodes : Ast → Nat → List (Nat × String)
  | Ast.node _ lbl cs, n => (n, lbl) :: preNodesF cs (n + 1)

/-- Forest version of `preNodes`. -/
def preNodesF : AstList → Nat → List (Nat × String)
  | AstList.nil, _ => []
  | AstList.cons t ts, n => preNodes t n ++ preNodesF ts (n + size t)
end

mutual
/-- Preorder labels of a tree. -/
def preLabels : Ast → List String
  | Ast.node _ lbl cs => lbl :: preLabelsF cs

/-- Preorder labels of a forest. -/
def preLabelsF : AstList → List String
  | AstList.nil => []
  | AstList.cons t ts => preLabels t ++ preLabelsF ts
end

mutual
/-- The parent-child pairs of a tree under preorder numbering, the
root receiving id `n`: one pair per non-root node. -/
def edgesOf : Ast → Nat → List (Nat × Nat)
  | Ast.node _ _ cs, n => edgesF cs (n + 1) n

/-- Forest version of `edgesOf`: subtrees numbered from `n`, all
roots attached to parent id `p`. -/
def edgesF : AstList → Nat → Nat → List (Nat × Nat)
  | AstList.nil, _, _ => []
  | AstList.cons t ts, n, p => (p, n) :: (edgesOf t n ++ edgesF ts (n + size t) p)
end

/-- The node records among a list of DOT records, in order. -/
def nodeRecs (l : List DotEntry) : List (Nat × String) :=
  l.filterMap fun e =>
    match e with
    | DotEntry.node i s => some (i, s)
    | DotEntry.edge _ _ => none

/-- The edge records among a list of DOT records, in order. -/
def edgeRecs (l : List DotEntry) : List (Nat × Nat) :=
  l.filterMap fun e =>
    match e with
    | DotEntry.node _ _ => none
    | DotEntry.edge a b => some (a, b)

/-- A unary chain of `n + 1` nested nodes (depth `n + 1`). -/
def chainAst : Nat → Ast
  | 0 => Ast.node CursorKind.other ("x") AstList.nil
  | n + 1 => Ast.node CursorKind.other ("x") (AstList.cons (chainAst n) AstList.nil)

mutual
/-- Closed form of one `visitor` call: every field of the metrics
struct after visiting a tree, as a function of the incoming state. -/
theorem visitor_eq (t : Ast) (m : Metrics) :
    visitor t m = { m with
      nodeCounter := m.nodeCounter + size t,
      cyclomatic := m.cyclomatic + (decisionCount t : Int),
      varDeclCount := m.varDeclCount + (varCount t : Int),
      maxLoopDepth := maxAfter t m.currentLoopDepth m.maxLoopDepth,
      dot := m.dot ++ dotOf t m.nodeCounter m.nodeStack.head?,
      stackAccesses := m.stackAccesses ++ accessesOf t m.nodeStack.length } := by
  cases t with
  | node kind label children =>
  cases m with
  | mk cyc vdc cld mld nc stk dots accs =>
  rw [visitor, visitChildren_eq]
  cases stk with
  | nil =>
    by_cases h1 : decisionKind kind = true <;>
    by_cases h2 : (kind == CursorKind.varDecl) = true <;>
    by_cases h3 : isLoopKind kind = true <;>
    simp [h1, h2, h3, size, decisionCount, varCount, maxAfter, dotOf, accessesOf,
      bumpCounter, emitNode, emitEdge, pushNode, bumpCyclomatic, bumpVarDecl,
      enterLoop, exitLoop, popNode, Metrics.mk.injEq] <;>
    (try (split <;> simp)) <;>
    (repeat' constructor) <;>
    omega
  | cons p rest =>
    by_cases h1 : decisionKind kind = true <;>
    by_cases h2 : (kind == CursorKind.varDecl) = true <;>
    by_cases h3 : isLoopKind kind = true <;>
    simp [h1, h2, h3, size, decisionCount, varCount, maxAfter, dotOf, accessesOf,
      bumpCounter, emitNode, emitEdge, pushNode, bumpCyclomatic, bumpVarDecl,
      enterLoop, exitLoop, popNode, Metrics.mk.injEq] <;>
    (try (split <;> simp)) <;>
    (repeat' constructor) <;>
    omega

/-- Closed form of `visitChildren` over a forest. -/
theorem visitChildren_eq (ts : AstList) (m : Metrics) :
    visitChildren ts m = { m with
      nodeCounter := m.nodeCounter + sizeF ts,
      cyclomatic := m.cyclomatic + (decisionCountF ts : Int),
      varDeclCount := m.varDeclCount + (varCountF ts : Int),
      maxLoopDepth := maxForestAfter ts m.currentLoopDepth m.maxLoopDepth,
      dot := m.dot ++ dotForest ts m.nodeCounter m.nodeStack.head?,
      stackAccesses := m.stackAccesses ++ accessesF ts m.nodeStack.length } := by
  cases ts with
  | nil =>
    cases m with
    | mk cyc vdc cld mld nc stk dots accs =>
      simp [visitChildren, sizeF, decisionCountF, varCountF, maxForestAfter, dotForest, accessesF]
  | cons t ts =>
    rw [visitChildren, visitor_eq, visitChildren_eq]
    cases m with
    | mk cyc vdc cld mld nc stk dots accs =>
      simp [sizeF, decisionCountF, varCountF, maxForestAfter, dotForest, accessesF,
        Metrics.mk.injEq]
      (repeat' constructor) <;>
      omega
end

/-- `nodeRecs` distributes over append. -/
theorem nodeRecs_append (l1 l2 : List DotEntry) :
    nodeRecs (l1 ++ l2) = nodeRecs l1 ++ nodeRecs l2 := by
  simp [nodeRecs]

/-- `edgeRecs` distributes over append. -/
theorem edgeRecs_append (l1 l2 : List DotEntry) :
    edgeRecs (l1 ++ l2) = edgeRecs l1 ++ edgeRecs l2 := by
  simp [edgeRecs]

/-- `natListMax` of an append is the max of the two maxima. -/
theorem natListMax_append (l1 l2 : List Nat) :
    natListMax (l1 ++ l2) = max (natListMax l1) (natListMax l2) := by
  induction l1 with
  | nil => simp [natListMax]
  | cons a l ih =>
    simp only [natListMax, List.cons_append, List.foldr_cons] at *
    omega

mutual
/-- Length of the loop-ancestor-count list is the loop-node count. -/
theorem loopAncCounts_length (t : Ast) (d : Nat) :
    (loopAncCounts t d).length = loopCount t := by
  cases t with
  | node k lbl cs =>
    by_cases hk : isLoopKind k = true <;>
    (simp [loopAncCounts, loopCount, hk, loopAncCountsF_length cs]; try omega)

/-- Forest version of `loopAncCounts_length`. -/
theorem loopAncCountsF_length (ts : AstList) (d : Nat) :
    (loopAncCountsF ts d).length = loopCountF ts := by
  cases ts with
  | nil => simp [loopAncCountsF, loopCountF]
  | cons t ts =>
    simp [loopAncCountsF, loopCountF, loopAncCounts_length t d, loopAncCountsF_length ts d]
end

mutual
/-- `maxAfter` is the running maximum of the incoming high-water mark
and the loop-ancestor counts of the subtree, whenever the incoming
high-water mark dominates the incoming current depth. -/
theorem maxAfter_eq (t : Ast) (d : Nat) (mx : Int) (h : (d : Int) ≤ mx) :
    maxAfter t (d : Int) mx = max mx (natListMax (loopAncCounts t d) : Int) := by
  cases t with
  | node k lbl cs =>
    by_cases hk : isLoopKind k = true
    · have h2 : ((d + 1 : Nat) : Int) ≤ (if (d : Int) + 1 > mx then (d : Int) + 1 else mx) := by
        split <;> push_cast <;> omega
      have hF := maxForestAfter_eq cs (d + 1) _ h2
      simp only [maxAfter, hk, if_true, loopAncCounts]
      push_cast at hF ⊢
      rw [hF]
      simp only [natListMax, List.foldr_cons]
      push_cast
      split <;> omega
    · have hF := maxForestAfter_eq cs d mx h
      simp only [maxAfter, hk, if_false, loopAncCounts, Bool.false_eq_true]
      rw [hF]

/-- Forest version of `maxAfter_eq`. -/
theorem maxForestAfter_eq (ts : AstList) (d : Nat) (mx : Int) (h : (d : Int) ≤ mx) :
    maxForestAfter ts (d : Int) mx = max mx (natListMax (loopAncCountsF ts d) : Int) := by
  cases ts with
  | nil =>
    simp only [maxForestAfter, loopAncCountsF, natListMax, List.foldr_nil]
    omega
  | cons t ts =>
    have h1 := maxAfter_eq t d mx h
    have h2 : (d : Int) ≤ max mx (natListMax (loopAncCounts t d) : Int) := by omega
    have h3 := maxForestAfter_eq ts d _ h2
    simp only [maxForestAfter, loopAncCountsF]
    rw [h1, h3, natListMax_append]
    push_cast
    omega
end

/-- C1: after traversing any input tree, `maxLoopDepth` equals the
maximum, over all loop-kind (for/while) nodes, of the number of
loop-kind ancestors of the node including the node itself; for a tree
containing no loop-kind nodes it equals 0. -/
theorem c1_maxLoopDepth (t : Ast) :
    (runVisitor t).maxLoopDepth = (natListMax (loopAncCounts t 0) : Int) ∧
    (loopCount t = 0 → (runVisitor t).maxLoopDepth = 0) := by
  have h1 : (runVisitor t).maxLoopDepth = maxAfter t 0 0 := by
    rw [runVisitor, visitor_eq]
    simp [initMetrics]
  have h2 : maxAfter t ((0 : Nat) : Int) 0 = max 0 (natListMax (loopAncCounts t 0) : Int) :=
    maxAfter_eq t 0 0 (by omega)
  push_cast at h2
  constructor
  · rw [h1, h2]
    omega
  · intro h0
    have h3 := loopAncCounts_length t 0
    rw [h0] at h3
    have h4 : loopAncCounts t 0 = [] := List.length_eq_zero.mp h3
    rw [h1, h2, h4]
    simp [natListMax]

/-- Witness for C1 at a concrete loop-free one-node tree. -/
theorem c1_maxLoopDepth_witness :
    loopCount (Ast.node CursorKind.other ("f") AstList.nil) = 0 ∧
    (runVisitor (Ast.node CursorKind.other ("f") AstList.nil)).maxLoopDepth = 0 :=
  ⟨by decide, (c1_maxLoopDepth (Ast.node CursorKind.other ("f") AstList.nil)).2 (by decide)⟩

/-- C2: `currentLoopDepth` is exactly 0 again after the traversal of
any input tree completes: every increment on entering a loop-kind
node is matched by exactly one decrement after its children. -/
theorem c2_currentLoopDepth_zero (t : Ast) :
    (runVisitor t).currentLoopDepth = 0 := by
  rw [runVisitor, visitor_eq]
  simp [initMetrics]

/-- C3: the final cyclomatic value is 1 plus the number of visited
decision-point-kind nodes (if / for / while / case / conditional
operator); hence it is at least 1, and exactly 1 when the tree has no
decision-point-kind node. -/
theorem c3_cyclomatic (t : Ast) :
    (runVisitor t).cyclomatic = 1 + (decisionCount t : Int) ∧
    1 ≤ (runVisitor t).cyclomatic ∧
    (decisionCount t = 0 → (runVisitor t).cyclomatic = 1) := by
  have h1 : (runVisitor t).cyclomatic = 1 + (decisionCount t : Int) := by
    rw [runVisitor, visitor_eq]
    simp [initMetrics]
  refine ⟨h1, by rw [h1]; omega, ?_⟩
  intro h0
  rw [h1, h0]
  simp

/-- Witness for C3 at a concrete decision-free one-node tree. -/
theorem c3_cyclomatic_witness :
    decisionCount (Ast.node CursorKind.varDecl ("v") AstList.nil) = 0 ∧
    (runVisitor (Ast.node CursorKind.varDecl ("v") AstList.nil)).cyclomatic = 1 :=
  ⟨by decide, (c3_cyclomatic (Ast.node CursorKind.varDecl ("v") AstList.nil)).2.2 (by decide)⟩

/-- C4: after traversal, `varDeclCount` equals the exact number of
variable-declaration-kind nodes in the tree. -/
theorem c4_varDeclCount (t : Ast) :
    (runVisitor t).varDeclCount = (varCount t : Int) := by
  rw [runVisitor, visitor_eq]
  simp [initMetrics]

/-- A node record contributes its id/label pair. -/
theorem nodeRecs_cons_node (i : Nat) (s : String) (l : List DotEntry) :
    nodeRecs (DotEntry.node i s :: l) = (i, s) :: nodeRecs l := by
  simp [nodeRecs]

/-- An edge record contributes no node record. -/
theorem nodeRecs_cons_edge (a b : Nat) (l : List DotEntry) :
    nodeRecs (DotEntry.edge a b :: l) = nodeRecs l := by
  simp [nodeRecs]

/-- An edge record contributes its endpoint pair. -/
theorem edgeRecs_cons_edge (a b : Nat) (l : List DotEntry) :
    edgeRecs (DotEntry.edge a b :: l) = (a, b) :: edgeRecs l := by
  simp [edgeRecs]

/-- A node record contributes no edge record. -/
theorem edgeRecs_cons_node (i : Nat) (s : String) (l : List DotEntry) :
    edgeRecs (DotEntry.node i s :: l) = edgeRecs l := by
  simp [edgeRecs]

/-- No records in an empty list. -/
theorem nodeRecs_nil : nodeRecs [] = [] := rfl

/-- No records in an empty list. -/
theorem edgeRecs_nil : edgeRecs [] = [] := rfl

mutual
/-- The node records of the DOT output of one subtree are its
preorder node/label pairs. -/
theorem nodeRecs_dotOf (t : Ast) (n : Nat) (p : Option Nat) :
    nodeRecs (dotOf t n p) = preNodes t n := by
  cases t with
  | node k lbl cs =>
    cases p <;>
    simp [dotOf, preNodes, nodeRecs_append, nodeRecs_cons_node, nodeRecs_cons_edge,
      nodeRecs_nil, nodeRecs_dotForest cs (n + 1) (some n)]

/-- Forest version of `nodeRecs_dotOf`. -/
theorem nodeRecs_dotForest (ts : AstList) (n : Nat) (p : Option Nat) :
    nodeRecs (dotForest ts n p) = preNodesF ts n := by
  cases ts with
  | nil => simp [dotForest, preNodesF, nodeRecs_nil]
  | cons t ts =>
    simp [dotForest, preNodesF, nodeRecs_append,
      nodeRecs_dotOf t n p, nodeRecs_dotForest ts (n + size t) p]
end

mutual
/-- The edge records of the DOT output of one subtree: one edge from
`p` (if present) to the root, then the parent-child pairs of the
subtree under preorder numbering. -/
theorem edgeRecs_dotOf (t : Ast) (n : Nat) (p : Option Nat) :
    edgeRecs (dotOf t n p) =
      (match p with | some q => [(q, n)] | none => []) ++ edgesOf t n := by
  cases t with
  | node k lbl cs =>
    cases p <;>
    simp [dotOf, edgesOf, edgeRecs_append, edgeRecs_cons_node, edgeRecs_cons_edge,
      edgeRecs_nil, edgeRecs_dotForest cs (n + 1) n]

/-- Forest version of `edgeRecs_dotOf` (every subtree has parent `q`). -/
theorem edgeRecs_dotForest (ts : AstList) (n q : Nat) :
    edgeRecs (dotForest ts n (some q)) = edgesF ts n q := by
  cases ts with
  | nil => simp [dotForest, edgesF, edgeRecs_nil]
  | cons t ts =>
    simp [dotForest, edgesF, edgeRecs_append,
      edgeRecs_dotOf t n (some q), edgeRecs_dotForest ts (n + size t) q]
end

/-- Splitting lemma for `List.range'` with unit step. -/
theorem range1_split (s a b : Nat) :
    List.range' s (a + b) = List.range' s a ++ List.range' (s + a) b := by
  have h := List.range'_append s a b 1
  rw [show s + 1 * a = s + a by omega] at h
  rw [Nat.add_comm a b]
  exact h.symm

mutual
/-- Preorder ids of a subtree numbered from `n` are `n, n+1, ...`. -/
theorem preNodes_fst (t : Ast) (n : Nat) :
    (preNodes t n).map Prod.fst = List.range' n (size t) := by
  cases t with
  | node k lbl cs =>
    rw [preNodes, size]
    rw [show (1 : Nat) + sizeF cs = sizeF cs + 1 by omega]
    rw [List.range'_succ]
    simp [preNodesF_fst cs (n + 1)]

/-- Forest version of `preNodes_fst`. -/
theorem preNodesF_fst (ts : AstList) (n : Nat) :
    (preNodesF ts n).map Prod.fst = List.range' n (sizeF ts) := by
  cases ts with
  | nil => simp [preNodesF, sizeF]
  | cons t ts =>
    rw [preNodesF, sizeF, range1_split]
    simp [preNodes_fst t n, preNodesF_fst ts (n + size t)]
end

mutual
/-- Preorder labels of a subtree's node records. -/
theorem preNodes_snd (t : Ast) (n : Nat) :
    (preNodes t n).map Prod.snd = preLabels t := by
  cases t with
  | node k lbl cs =>
    simp [preNodes, preLabels, preNodesF_snd cs (n + 1)]

/-- Forest version of `preNodes_snd`. -/
theorem preNodesF_snd (ts : AstList) (n : Nat) :
    (preNodesF ts n).map Prod.snd = preLabelsF ts := by
  cases ts with
  | nil => simp [preNodesF, preLabelsF]
  | cons t ts =>
    simp [preNodesF, preLabelsF, preNodes_snd t n, preNodesF_snd ts (n + size t)]
end

mutual
/-- A subtree of `k` nodes contributes `k - 1` parent-child pairs. -/
theorem edgesOf_length (t : Ast) (n : Nat) :
    (edgesOf t n).length + 1 = size t := by
  cases t with
  | node k lbl cs =>
    rw [edgesOf, size, edgesF_length cs (n + 1) n]
    omega

/-- A forest of `k` nodes with a common parent contributes `k` pairs. -/
theorem edgesF_length (ts : AstList) (n p : Nat) :
    (edgesF ts n p).length = sizeF ts := by
  cases ts with
  | nil => simp [edgesF, sizeF]
  | cons t ts =>
    have h1 := edgesOf_length t n
    have h2 := edgesF_length ts (n + size t) p
    rw [edgesF, sizeF]
    simp
    omega
end

/-- The DOT records of a whole single-rooted run are exactly the
records of the tree numbered in preorder from 0, with no parent for
the root. -/
theorem runVisitor_dot (t : Ast) : (runVisitor t).dot = dotOf t 0 none := by
  rw [runVisitor, visitor_eq]
  simp [initMetrics]

/-- C5: for a single-rooted input tree, the emitted edge records
number one less than the emitted node records, the node records carry
the preorder ids `0, 1, ...` with the preorder labels, and the edge
records are exactly the parent-child pairs of the input AST under
that numbering: the emitted graph is a tree isomorphic to the input. -/
theorem c5_tree_isomorphic (t : Ast) :
    (edgeRecs (runVisitor t).dot).length + 1 = (nodeRecs (runVisitor t).dot).length ∧
    (nodeRecs (runVisitor t).dot).map Prod.fst = List.range (size t) ∧
    (nodeRecs (runVisitor t).dot).map Prod.snd = preLabels t ∧
    edgeRecs (runVisitor t).dot = edgesOf t 0 := by
  have hd := runVisitor_dot t
  have hn : nodeRecs (runVisitor t).dot = preNodes t 0 := by
    rw [hd, nodeRecs_dotOf]
  have he : edgeRecs (runVisitor t).dot = edgesOf t 0 := by
    rw [hd]
    have h := edgeRecs_dotOf t 0 none
    simpa using h
  have hfst : (nodeRecs (runVisitor t).dot).map Prod.fst = List.range (size t) := by
    rw [hn, preNodes_fst, List.range_eq_range']
  have hlen : (nodeRecs (runVisitor t).dot).length = size t := by
    have := congrArg List.length hfst
    simpa using this
  refine ⟨?_, hfst, ?_, he⟩
  · rw [he, hlen, edgesOf_length]
  · rw [hn, preNodes_snd]

/-- C6: exactly one node record per visited node, in preorder; the
ids are `0, 1, 2, ...` in emission order — unique, strictly
increasing, starting at 0 — and the number of node records equals the
final value of the node-id allocator `nodeCounter`. -/
theorem c6_node_ids (t : Ast) :
    nodeRecs (runVisitor t).dot = preNodes t 0 ∧
    (nodeRecs (runVisitor t).dot).map Prod.fst = List.range (size t) ∧
    List.Pairwise (fun a b => a < b) ((nodeRecs (runVisitor t).dot).map Prod.fst) ∧
    ((nodeRecs (runVisitor t).dot).map Prod.fst).Nodup ∧
    ((nodeRecs (runVisitor t).dot).map Prod.fst).head? = some 0 ∧
    (nodeRecs (runVisitor t).dot).length = (runVisitor t).nodeCounter ∧
    (runVisitor t).nodeCounter = size t := by
  have hd := runVisitor_dot t
  have hn : nodeRecs (runVisitor t).dot = preNodes t 0 := by
    rw [hd, nodeRecs_dotOf]
  have hfst : (nodeRecs (runVisitor t).dot).map Prod.fst = List.range (size t) := by
    rw [hn, preNodes_fst, List.range_eq_range']
  have hc : (runVisitor t).nodeCounter = size t := by
    rw [runVisitor, visitor_eq]
    simp [initMetrics]
  refine ⟨hn, hfst, ?_, ?_, ?_, ?_, hc⟩
  · rw [hfst]
    exact List.pairwise_lt_range (size t)
  · rw [hfst]
    exact List.nodup_range (size t)
  · rw [hfst]
    obtain ⟨k, hk⟩ : ∃ k, size t = k + 1 := by
      cases t with
      | node k0 lbl cs =>
        rw [size]
        exact ⟨sizeF cs, by omega⟩
    rw [hk, List.range_succ_eq_map]
    simp
  · rw [hc]
    have := congrArg List.length hfst
    simpa using this

/-- The exact text written for one record: the node-line format of
Main.c line 26 and the edge-line format of line 32.  The label is
written verbatim (`%s`); the code applies no escaping. -/
def renderEntry : DotEntry → String
  | DotEntry.node i lbl =>
    "  node" ++ toString i ++ " [label=\"" ++ lbl ++ "\"];\n"
  | DotEntry.edge a b =>
    "  node" ++ toString a ++ " -> node" ++ toString b ++ ";\n"

/-- The DOT-file text of a record stream. -/
def renderDot (l : List DotEntry) : String :=
  String.join (l.map renderEntry)

/-- Strip an expected literal prefix from the input, or fail. -/
def stripLit : List Char → List Char → Option (List Char)
  | [], rest => some rest
  | _ :: _, [] => none
  | c :: cs, d :: ds => if d == c then stripLit cs ds else none

/-- Drop a leading run of decimal digits. -/
def dropDigits : List Char → List Char
  | [] => []
  | c :: cs => if c.isDigit then dropDigits cs else c :: cs

/-- Does the input start with a decimal digit? -/
def hasDigit1 : List Char → Bool
  | [] => false
  | c :: _ => c.isDigit

/-- Lex a DOT double-quoted string body after the opening quote: a
quote inside the body must be preceded by a backslash; returns the
input following the closing quote. -/
def scanQuoted : List Char → Option (List Char)
  | [] => none
  | c :: cs =>
    if c == '"' then some cs
    else if c == '\\' then
      match cs with
      | [] => none
      | _ :: cs2 => scanQuoted cs2
    else scanQuoted cs

/-- Does a string parse as exactly one syntactically valid DOT node
statement of the emitted shape, `  node<digits> [label="<body>"];`
followed by a newline, with a well-formed quoted string as body? -/
def validNodeStmt (s : String) : Bool :=
  match stripLit ("  node").data s.data with
  | none => false
  | some r1 =>
    if hasDigit1 r1 then
      match stripLit (" [label=\"").data (dropDigits r1) with
      | none => false
      | some r2 =>
        match scanQuoted r2 with
        | none => false
        | some r3 =>
          match stripLit ("];\n").data r3 with
          | some [] => true
          | _ => false
    else false

/-- C7: the emitter writes labels verbatim with no escaping
(Main.c line 26, `%s`), so the emitted graph description is NOT
syntactically valid for every label: visiting a node whose label
contains a double quote emits the record rendered as
`  node0 [label="a"b"];`, which fails the DOT quoted-string grammar,
while an ordinary label renders validly.  This contradicts the
spec's requirement that labels be escaped/quoted. -/
theorem c7_label_not_escaped :
    (runVisitor (Ast.node CursorKind.other ("a\"b") AstList.nil)).dot
      = [DotEntry.node 0 ("a\"b")] ∧
    validNodeStmt (renderEntry (DotEntry.node 0 ("a\"b"))) = false ∧
    validNodeStmt (renderEntry (DotEntry.node 0 ("ab"))) = true ∧
    validNodeStmt (renderEntry (DotEntry.node 0 ("a\\"))) = false := by
  refine ⟨by decide, by decide, by decide, by decide⟩

/-- The digraph header `main` writes before parsing (Main.c line 86). -/
def dotHeader : String := "digraph G \x7b\n"

/-- The closing line written after the traversal (Main.c line 114). -/
def dotFooter : String := "\x7d\n"

/-- The usage message of Main.c line 76. -/
def usageLine (prog : String) : String :=
  "Usage: " ++ prog ++ " <source-file.c>\n"

/-- Marker for the `perror("fopen")` diagnostic of Main.c line 83
(its exact text depends on errno). -/
def fopenErrLine : String := "fopen"

/-- The parse-failure diagnostic of Main.c line 94. -/
def parseErrLine : String := "Unable to parse translation unit!\n"

/-- The renderer-failure warning of Main.c line 119. -/
def dotFailLine : String := "Failed to convert DOT to SVG.\n"

/-- The viewer/cleanup-failure warning of Main.c line 125. -/
def viewFailLine : String := "Failed to launch or delete the SVG file.\n"

/-- The first metrics line (Main.c line 129). -/
def cyclomaticLine (n : Int) : String :=
  "Cyclomatic Complexity: " ++ toString n ++ "\n"

/-- The second metrics line (Main.c line 130). -/
def timeLine (n : Int) : String :=
  "Estimated Time Complexity: O(n^" ++ toString n ++ ") based on max loop nesting depth\n"

/-- The third metrics line (Main.c line 131). -/
def spaceLine (n : Int) : String :=
  "Estimated Space Complexity: O(n) with " ++ toString n ++ " variable declarations\n"

/-- The environment `main` runs in: whether a path argument was given
(argc at least 2), the program name, whether `fopen("ast.dot", "w")`
succeeds, the parse outcome (`none` when the parser returns NULL,
otherwise the forest of children of the translation-unit cursor),
and whether the two `system` commands (Graphviz rendering; viewer
and cleanup) report success. -/
structure Env where
  progName : String
  hasInputArg : Bool
  fopenOk : Bool
  parseResult : Option AstList
  dotCmdOk : Bool
  viewCmdOk : Bool

/-- Observable outcome of a run of `main`: the process exit status,
what this run leaves in `ast.dot` (`none` when the file was never
opened), the standard-output lines and the standard-error lines. -/
structure RunResult where
  exitCode : Int
  dotFileContent : Option String
  stdout : List String
  stderr : List String
deriving DecidableEq

/-- `main` of Main.c lines 74-137: return 1 on a missing argument
(line 77); return 1 when `fopen` fails (line 84); write the digraph
header (line 86); return 1 when the parser yields no translation unit
(line 95), the header being already in the file; otherwise traverse
the children of the root cursor (line 111), finalize the file
(lines 114-115), run the two `system` commands whose failures only
add warnings (lines 118-126), print the three metric lines
(lines 129-131) and return 0. -/
def mainRun (e : Env) : RunResult :=
  if e.hasInputArg = false then
    { exitCode := 1, dotFileContent := none, stdout := [],
      stderr := [usageLine e.progName] }
  else if e.fopenOk = false then
    { exitCode := 1, dotFileContent := none, stdout := [],
      stderr := [fopenErrLine] }
  else
    match e.parseResult with
    | none =>
      { exitCode := 1, dotFileContent := some dotHeader, stdout := [],
        stderr := [parseErrLine] }
    | some roots =>
      let m := visitChildren roots initMetrics
      { exitCode := 0,
        dotFileContent := some (dotHeader ++ renderDot m.dot ++ dotFooter),
        stdout := [cyclomaticLine m.cyclomatic, timeLine m.maxLoopDepth,
          spaceLine m.varDeclCount],
        stderr := (if e.dotCmdOk then [] else [dotFailLine]) ++
          (if e.viewCmdOk then [] else [viewFailLine]) }

/-- A concrete run in which the argument is present, the output file
opens, and the parser fails. -/
def envParseFail : Env :=
  { progName := "analyzer", hasInputArg := true, fopenOk := true,
    parseResult := none, dotCmdOk := true, viewCmdOk := true }

/-- C8 counterexample: on a parse failure the run is fatal and prints
no metrics, but the graph output file does NOT contain nothing from
the failed run: the digraph header written before parsing (Main.c
line 86) is in it, and it is a non-empty string. -/
theorem c8_counterexample :
    (mainRun envParseFail).exitCode = 1 ∧
    (mainRun envParseFail).stdout = [] ∧
    (mainRun envParseFail).dotFileContent = some dotHeader ∧
    dotHeader ≠ "" := by
  refine ⟨rfl, rfl, rfl, by decide⟩

/-- C8 amended: when the external parser fails to produce a tree the
run is fatal with exit status 1 and no metrics report, and the graph
output file contains exactly the digraph header that was written
before parsing — no node or edge records, but not nothing. -/
theorem c8_parse_failure (e : Env) (h1 : e.hasInputArg = true)
    (h2 : e.fopenOk = true) (h3 : e.parseResult = none) :
    (mainRun e).exitCode = 1 ∧
    (mainRun e).stdout = [] ∧
    (mainRun e).dotFileContent = some dotHeader := by
  simp [mainRun, h1, h2, h3]

/-- Witness for C8 at the concrete parse-failure environment. -/
theorem c8_parse_failure_witness :
    envParseFail.hasInputArg = true ∧ envParseFail.fopenOk = true ∧
    envParseFail.parseResult = none ∧
    ((mainRun envParseFail).exitCode = 1 ∧ (mainRun envParseFail).stdout = [] ∧
      (mainRun envParseFail).dotFileContent = some dotHeader) :=
  ⟨rfl, rfl, rfl, c8_parse_failure envParseFail rfl rfl rfl⟩

/-- C9: the exit status is non-zero exactly when the path argument is
missing, the output file cannot be opened, or the parse fails; and the
outcomes of the renderer and viewer commands never change the exit
status. -/
theorem c9_exit_status (e : Env) :
    ((mainRun e).exitCode ≠ 0 ↔
      (e.hasInputArg = false ∨ e.fopenOk = false ∨ e.parseResult = none)) ∧
    (∀ b1 b2 : Bool,
      (mainRun { e with dotCmdOk := b1, viewCmdOk := b2 }).exitCode =
        (mainRun e).exitCode) := by
  cases e with
  | mk prog arg fo pr d v =>
    cases arg <;> cases fo <;> cases pr <;> simp [mainRun]

mutual
/-- Every stack-array index touched while visiting a tree entered at
stack depth `d` lies below `d` plus the tree's height. -/
theorem accessesOf_lt (t : Ast) (d : Nat) :
    ∀ i ∈ accessesOf t d, i < d + depth t := by
  cases t with
  | node k lbl cs =>
    intro i hi
    rw [depth]
    have hF := accessesF_lt cs (d + 1)
    by_cases hd : 0 < d
    · simp only [accessesOf, if_pos hd, List.cons_append, List.singleton_append,
        List.nil_append, List.mem_cons] at hi
      rcases hi with rfl | h2
      · omega
      rcases h2 with rfl | h3
      · omega
      have := hF i h3
      omega
    · simp only [accessesOf, if_neg hd, List.nil_append, List.mem_cons] at hi
      rcases hi with rfl | h2
      · omega
      have := hF i h2
      omega

/-- Forest version of `accessesOf_lt`. -/
theorem accessesF_lt (ts : AstList) (d : Nat) :
    ∀ i ∈ accessesF ts d, i < d + depthF ts := by
  cases ts with
  | nil =>
    intro i hi
    simp [accessesF] at hi
  | cons t ts =>
    intro i hi
    rw [depthF]
    rw [accessesF] at hi
    simp only [List.mem_append] at hi
    rcases hi with hi | hi
    · have := accessesOf_lt t d i hi
      omega
    · have := accessesF_lt ts d i hi
      omega
end

/-- The access trace of a whole single-rooted run starts at depth 0. -/
theorem runVisitor_stackAccesses (t : Ast) :
    (runVisitor t).stackAccesses = accessesOf t 0 := by
  rw [runVisitor, visitor_eq]
  simp [initMetrics]

/-- A chain of `n + 1` nodes has height `n + 1`. -/
theorem depth_chainAst (n : Nat) : depth (chainAst n) = n + 1 := by
  induction n with
  | zero => rfl
  | succ n ih =>
    rw [chainAst, depth, depthF, depthF, ih]
    omega

/-- Visiting a chain of `n + 1` nodes from depth `d` stores into
stack index `d + n`. -/
theorem mem_accessesOf_chainAst (n : Nat) : ∀ d, d + n ∈ accessesOf (chainAst n) d := by
  induction n with
  | zero =>
    intro d
    rw [chainAst, accessesOf]
    apply List.mem_append_right
    simp
  | succ n ih =>
    intro d
    rw [chainAst, accessesOf]
    apply List.mem_append_right
    apply List.mem_cons_of_mem
    rw [accessesF]
    apply List.mem_append_left
    have h := ih (d + 1)
    have e : d + 1 + n = d + (n + 1) := by omega
    rw [e] at h
    exact h

/-- C10: the push `nodeStack[stackTop++] = nodeId` (Main.c line 36)
has no bounds check on the 1024-entry array (line 13).  Every index
the traversal reads (line 31) or writes (line 36) is in bounds
provided the input tree's depth is at most 1024; and on an input tree
of depth 1025 the push writes index 1024, one past the end of the
array. -/
theorem c10_stack_bounds :
    (∀ t : Ast, depth t ≤ 1024 →
      ∀ i ∈ (runVisitor t).stackAccesses, i < 1024) ∧
    (1024 < depth (chainAst 1024) ∧
      1024 ∈ (runVisitor (chainAst 1024)).stackAccesses) := by
  refine ⟨?_, ?_, ?_⟩
  · intro t ht i hi
    rw [runVisitor_stackAccesses] at hi
    have := accessesOf_lt t 0 i hi
    omega
  · rw [depth_chainAst]
    omega
  · rw [runVisitor_stackAccesses]
    have h := mem_accessesOf_chainAst 1024 0
    simpa using h

/-- Witness for C10 at a concrete one-node tree. -/
theorem c10_stack_bounds_witness :
    depth (Ast.node CursorKind.other ("f") AstList.nil) ≤ 1024 ∧
    ∀ i ∈ (runVisitor (Ast.node CursorKind.other ("f") AstList.nil)).stackAccesses,
      i < 1024 :=
  ⟨by decide, c10_stack_bounds.1 (Ast.node CursorKind.other ("f") AstList.nil) (by decide)⟩
